import Mathlib

/-!
Shallow embedding of the adaptive time-bucketing core of the EventDrops
repository (files `src/dropLine.js` and `src/heatmap.js`).

Modelling conventions:
* A JavaScript `Date` is modelled as `Option Int`: `some t` is a valid date
  whose `getTime()` is the integer `t` (milliseconds), `none` is any value
  that fails the source's `isValidDate` test (not a `Date`, or `NaN` time).
* The d3 library object is an external collaborator; it is modelled as a
  structure of calendar-interval primitives (`floor`, `ceil`, `offset`,
  `count`), exactly the operations the source calls on it.
* A d3 `scaleTime` (`xScale`) is modelled by its three used capabilities:
  `domain()`, `ticks(count)` and application to a date (pixel mapping).
* JavaScript numerics used by the code under verification are integers
  (millisecond timestamps, counts, pixel widths compared against integer
  thresholds); they are modelled as `Int`.  The one float computation
  (`detectTickScaleFromDuration`'s day/year ratios) is modelled in `ℚ`.
-/

/-- A d3 time interval (e.g. `d3.timeDay`): the calendar primitives the
source calls on interval objects. -/
structure TimeInterval where
  floor : Int → Int
  ceil : Int → Int
  offset : Int → Int → Int
  count : Int → Int → Int
deriving Inhabited

/-- The d3 calendar collaborator: the named intervals the source reads off
the `d3` object, plus `d3.timeYear.every(n)` (used for millennium/decades). -/
structure D3 where
  timeYear : TimeInterval
  timeMonth : TimeInterval
  timeWeek : TimeInterval
  timeDay : TimeInterval
  timeHour : TimeInterval
  timeMinute : TimeInterval
  timeSecond : TimeInterval
  timeYearEvery : Int → TimeInterval

/-- A d3 `scaleTime`: its domain, its tick generator and its pixel mapping.
`domain` is `Option`-wrapped because the source guards `!domain`. -/
structure XScale where
  domain : Option (List (Option Int))
  ticks : Int → List Int
  toPx : Int → Int

/-- Bucket size constraints (`config.bucketSize`): `none` models `null`. -/
structure BucketSize where
  minWidth : Option Int
  maxWidth : Option Int

/-- `TIMESCALE_HIERARCHY` from `dropLine.js`: the fixed refinement
hierarchy, finest to coarsest (millennium excluded). -/
def TIMESCALE_HIERARCHY : List String :=
  ["milliseconds", "seconds", "minutes", "hours", "days", "weeks", "months",
   "years", "decades"]

/-- `BUCKET_SCALE_MAP` from `dropLine.js`: tick granularity to bucket
granularity (one level finer), as an object-key lookup. -/
def BUCKET_SCALE_MAP : String → Option String
  | "millennium" => some "decades"
  | "decades" => some "years"
  | "years" => some "months"
  | "months" => some "weeks"
  | "weeks" => some "days"
  | "days" => some "hours"
  | "hours" => some "minutes"
  | "minutes" => some "seconds"
  | "seconds" => some "milliseconds"
  | "milliseconds" => some "milliseconds"
  | _ => none

/-- `getD3TimeInterval` from `dropLine.js`: the d3 interval for a scale
string; `milliseconds` falls back to `d3.timeSecond`, unknown strings to
`d3.timeDay`. -/
def getD3TimeInterval (d3 : D3) (scale : String) : TimeInterval :=
  match scale with
  | "millennium" => d3.timeYearEvery 1000
  | "decades" => d3.timeYearEvery 10
  | "years" => d3.timeYear
  | "months" => d3.timeMonth
  | "weeks" => d3.timeWeek
  | "days" => d3.timeDay
  | "hours" => d3.timeHour
  | "minutes" => d3.timeMinute
  | "seconds" => d3.timeSecond
  | "milliseconds" => d3.timeSecond
  | _ => d3.timeDay

/-- `isValidDate` from `dropLine.js`: a value is a valid date iff it is a
`Date` instance with non-`NaN` time, i.e. `some _` in this model. -/
def isValidDate : Option Int → Bool
  | some _ => true
  | none => false

/-- `validateDomain` from `dropLine.js` (lines 203-216): `null` for a
missing domain, fewer than two values, or bounds failing `isValidDate`;
otherwise `{start, end}`.  Note: the source performs no check that
`start < end`. -/
def validateDomain (domain : Option (List (Option Int))) : Option (Int × Int) :=
  match domain with
  | none => none
  | some l =>
    if l.length < 2 then none
    else
      match l[0]?, l[1]? with
      | some (some s), some (some e) => some (s, e)
      | _, _ => none

/-- `calculateBucketWidth` from `dropLine.js` (lines 226-242): pixel width
of the sample bucket at the start of the domain, floored at 0. -/
def calculateBucketWidth (d3 : D3) (xScale : XScale) (bucketScale : String) : Int :=
  match validateDomain xScale.domain with
  | none => 0
  | some (s, _) =>
    let timeInterval := getD3TimeInterval d3 bucketScale
    let bucketStartDate := timeInterval.floor s
    let bucketEndDate := timeInterval.offset bucketStartDate 1
    max 0 (xScale.toPx bucketEndDate - xScale.toPx bucketStartDate)

/-- `detectTickScaleFromDuration` from `dropLine.js` (lines 263-277);
the float ratios are modelled exactly in `ℚ`. -/
def detectTickScaleFromDuration (duration : Int) : String :=
  let durationDays : ℚ := (duration : ℚ) / (1000 * 60 * 60 * 24)
  let durationYears : ℚ := durationDays / (1461 / 4)
  if 1000 ≤ durationYears then "millennium"
  else if 10 ≤ durationYears then "decades"
  else if 365 ≤ durationDays then "years"
  else if 30 ≤ durationDays then "months"
  else if 7 ≤ durationDays then "weeks"
  else if 1 ≤ durationDays then "days"
  else if (1000 * 60 * 60 : Int) ≤ duration then "hours"
  else if (1000 * 60 : Int) ≤ duration then "minutes"
  else if (1000 : Int) ≤ duration then "seconds"
  else "milliseconds"

/-- One candidate of the closest-unit inference in
`detectTickScaleFromTicks`. -/
structure Candidate where
  scale : String
  expectedDuration : Int
  count : Int
deriving DecidableEq, Inhabited

/-- The candidate list built by `detectTickScaleFromTicks`
(`dropLine.js` lines 295-345), in source order: millennium, decades,
years, months, weeks, days, hours, minutes, seconds, then the
unconditional milliseconds fallback.  Note that the millennium and
decades candidates reuse the *year* count in their expected duration. -/
def detectCandidates (d3 : D3) (tick1 tick2 : Int) : List Candidate :=
  let tickDuration := tick2 - tick1
  let yearCount := d3.timeYear.count tick1 tick2
  let monthCount := d3.timeMonth.count tick1 tick2
  let weekCount := d3.timeWeek.count tick1 tick2
  let dayCount := d3.timeDay.count tick1 tick2
  let hourCount := d3.timeHour.count tick1 tick2
  let minuteCount := d3.timeMinute.count tick1 tick2
  let secondCount := d3.timeSecond.count tick1 tick2
  (if 1000 ≤ yearCount then
    [⟨"millennium", d3.timeYear.offset tick1 yearCount - tick1, yearCount / 1000⟩]
   else []) ++
  (if 10 ≤ yearCount then
    [⟨"decades", d3.timeYear.offset tick1 yearCount - tick1, yearCount / 10⟩]
   else []) ++
  (if 1 ≤ yearCount then
    [⟨"years", d3.timeYear.offset tick1 yearCount - tick1, yearCount⟩]
   else []) ++
  (if 1 ≤ monthCount then
    [⟨"months", d3.timeMonth.offset tick1 monthCount - tick1, monthCount⟩]
   else []) ++
  (if 1 ≤ weekCount then
    [⟨"weeks", d3.timeWeek.offset tick1 weekCount - tick1, weekCount⟩]
   else []) ++
  (if 1 ≤ dayCount then
    [⟨"days", d3.timeDay.offset tick1 dayCount - tick1, dayCount⟩]
   else []) ++
  (if 1 ≤ hourCount then
    [⟨"hours", d3.timeHour.offset tick1 hourCount - tick1, hourCount⟩]
   else []) ++
  (if 1 ≤ minuteCount then
    [⟨"minutes", d3.timeMinute.offset tick1 minuteCount - tick1, minuteCount⟩]
   else []) ++
  (if 1 ≤ secondCount then
    [⟨"seconds", d3.timeSecond.offset tick1 secondCount - tick1, secondCount⟩]
   else []) ++
  [⟨"milliseconds", tickDuration, 1⟩]

/-- The selection loop of `detectTickScaleFromTicks` (lines 347-357):
running best scale and minimal difference; `none` models the initial
`Infinity`, beaten by any finite difference. -/
def selectLoop (tickDuration : Int) : List Candidate → String → Option Int → String
  | [], bestScale, _ => bestScale
  | c :: rest, bestScale, minDifference =>
    let difference := |c.expectedDuration - tickDuration|
    match minDifference with
    | none => selectLoop tickDuration rest c.scale (some difference)
    | some m =>
      if difference < m then selectLoop tickDuration rest c.scale (some difference)
      else selectLoop tickDuration rest bestScale (some m)

/-- `detectTickScaleFromTicks` from `dropLine.js` (lines 286-359). -/
def detectTickScaleFromTicks (d3 : D3) (sampleTicks : List Int) : String :=
  match sampleTicks with
  | tick1 :: tick2 :: _ =>
    let tickDuration := tick2 - tick1
    selectLoop tickDuration (detectCandidates d3 tick1 tick2) "milliseconds" none
  | _ => "days"

/-- The ascending walk of `refineBucketScale`'s minWidth loop
(`dropLine.js` lines 384-397): scan coarser scales; adopt the first one
whose width meets the minimum, or the last scale scanned if none does;
with nothing to scan the current scale is kept. -/
def walkCoarser (w : String → Int) (minWidth : Int) : List String → String → String
  | [], current => current
  | testScale :: rest, current =>
    if minWidth ≤ w testScale then testScale
    else if rest.isEmpty then testScale
    else walkCoarser w minWidth rest current

/-- The descending walk of `refineBucketScale`'s maxWidth loop
(`dropLine.js` lines 402-415), same shape toward finer scales. -/
def walkFiner (w : String → Int) (maxWidth : Int) : List String → String → String
  | [], current => current
  | testScale :: rest, current =>
    if w testScale ≤ maxWidth then testScale
    else if rest.isEmpty then testScale
    else walkFiner w maxWidth rest current

/-- `refineBucketScale` from `dropLine.js` (lines 371-419).  The JS
`indexOf` sentinel `-1` is modelled by `findIdx? = none`; note the
descending maxWidth loop starts from `currentScaleIndex - 1`, where
`currentScaleIndex` is the index of the *initial* scale (it is not
updated by the minWidth walk). -/
def refineBucketScale (d3 : D3) (xScale : XScale) (bucketScale0 : String)
    (bucketSize : BucketSize) : String :=
  let w := fun s => calculateBucketWidth d3 xScale s
  let p := match TIMESCALE_HIERARCHY.findIdx? (fun s => s == bucketScale0) with
    | some i => (i, bucketScale0)
    | none => (4, "days")
  let currentScaleIndex := p.1
  let bucketScale := p.2
  let currentWidth := w bucketScale
  let bucketScale2 :=
    match bucketSize.minWidth with
    | some m =>
      if currentWidth < m then
        walkCoarser w m (TIMESCALE_HIERARCHY.drop (currentScaleIndex + 1)) bucketScale
      else bucketScale
    | none => bucketScale
  match bucketSize.maxWidth with
  | some mx =>
    if mx < w bucketScale2 then
      walkFiner w mx ((TIMESCALE_HIERARCHY.take currentScaleIndex).reverse) bucketScale2
    else bucketScale2
  | none => bucketScale2

/-- `getTimeScale` from `dropLine.js` (lines 433-463). -/
def getTimeScale (d3 : D3) (xScale : XScale)
    (numberDisplayedTicks : Option (String → Option Int))
    (breakpointLabel : Option String) (bucketSize : Option BucketSize) : String :=
  match validateDomain xScale.domain with
  | none => "days"
  | some (s, e) =>
    let tickCount : Int :=
      match numberDisplayedTicks, breakpointLabel with
      | some f, some bl => (f bl).getD 10
      | _, _ => 10
    let sampleTicks := xScale.ticks tickCount
    let tickScale :=
      if sampleTicks.length < 2 then detectTickScaleFromDuration (e - s)
      else detectTickScaleFromTicks d3 sampleTicks
    let bucketScale := (BUCKET_SCALE_MAP tickScale).getD "days"
    match bucketSize with
    | some bs =>
      if bs.minWidth.isSome || bs.maxWidth.isSome then
        refineBucketScale d3 xScale bucketScale bs
      else bucketScale
    | none => bucketScale

/-- `shouldUseHeatmap` from `dropLine.js` (lines 480-501).  The source's
second `isValidDate` test on the validated bounds is a tautology once
`validateDomain` has succeeded, so it introduces no branch here. -/
def shouldUseHeatmap (d3 : D3) (xScale : XScale)
    (numberDisplayedTicks : Option (String → Option Int))
    (breakpointLabel : Option String) (bucketSize : Option BucketSize) : Bool :=
  match validateDomain xScale.domain with
  | none => false
  | some _ =>
    let timeScale := getTimeScale d3 xScale numberDisplayedTicks breakpointLabel bucketSize
    ["days", "weeks", "months", "years", "decades"].contains timeScale

/-- A heatmap bucket (`heatmap.js` `aggregateEvents`):
`{ date, count, events }`. -/
structure Bucket (α : Type) where
  date : Int
  count : Nat
  events : List α
deriving DecidableEq

/-- A bucket after per-row normalization (`getHeatmapBucketData`):
the bucket plus its `intensity`. -/
structure HBucket (α : Type) where
  date : Int
  count : Nat
  events : List α
  intensity : ℚ
deriving DecidableEq

/-- The `buckets` Map of `aggregateEvents`, as an insertion-ordered
association list keyed by `bucketDate.getTime()`:  an existing bucket
gets `count += 1` and the event appended; a new key is appended at the
end with a fresh bucket (`count` starts at 0 and is incremented to 1). -/
def addToBuckets {α : Type} (acc : List (Int × Bucket α)) (bucketKey : Int)
    (event : α) : List (Int × Bucket α) :=
  match acc with
  | [] => [(bucketKey, ⟨bucketKey, 1, [event]⟩)]
  | (k, b) :: rest =>
    if k = bucketKey then
      (k, ⟨b.date, b.count + 1, b.events ++ [event]⟩) :: rest
    else (k, b) :: addToBuckets rest bucketKey event

/-- The per-event body of `aggregateEvents`'s `forEach`
(`heatmap.js` lines 30-58). -/
def aggregateStep {α : Type} (dropDate : α → Option Int)
    (domainStart domainEnd : Int) (timeInterval : TimeInterval)
    (bucketStartBound bucketEndBound : Int)
    (acc : List (Int × Bucket α)) (event : α) : List (Int × Bucket α) :=
  match dropDate event with
  | none => acc
  | some eventDate =>
    if eventDate < domainStart ∨ domainEnd ≤ eventDate then acc
    else
      let bucketDate := timeInterval.floor eventDate
      if bucketStartBound ≤ bucketDate ∧ bucketDate ≤ bucketEndBound then
        addToBuckets acc bucketDate event
      else acc

/-- `aggregateEvents` from `heatmap.js` (lines 13-63).  `events` is
`Option`-wrapped because the source guards `Array.isArray(events)`;
the final `Array.from(...).sort((a, b) => a.date - b.date)` is the
stable sort by bucket date. -/
def aggregateEvents {α : Type} (xScale : XScale) (dropDate : α → Option Int)
    (events : Option (List α)) (timeInterval : TimeInterval) : List (Bucket α) :=
  match validateDomain xScale.domain with
  | none => []
  | some (domainStart, domainEnd) =>
    let bucketStartBound := timeInterval.floor domainStart
    let bucketEndBound := timeInterval.ceil domainEnd
    let pairs :=
      match events with
      | some evs =>
        evs.foldl
          (aggregateStep dropDate domainStart domainEnd timeInterval
            bucketStartBound bucketEndBound) []
      | none => []
    (pairs.map Prod.snd).mergeSort (fun a b => a.date ≤ b.date)

/-- `getMaxIntensity` from `heatmap.js` (lines 72-82). -/
def getMaxIntensity {α : Type} (buckets : List (Bucket α)) : Nat :=
  if buckets.length = 0 then 1
  else
    let maxCount := (buckets.map (fun b => b.count)).foldr max 0
    if 0 < maxCount then maxCount else 1

/-- The per-row normalization mapping of `getHeatmapBucketData`
(`heatmap.js` lines 258-263): intensity is `count / maxCount` clamped
at 1, or 0 under the (dead, since `getMaxIntensity ≥ 1`) guard
`maxCount > 0`. -/
def normalizeBuckets {α : Type} (buckets : List (Bucket α)) : List (HBucket α) :=
  let maxCount := getMaxIntensity buckets
  buckets.map fun b =>
    ⟨b.date, b.count, b.events,
      if 0 < maxCount then min ((b.count : ℚ) / (maxCount : ℚ)) 1 else 0⟩

/-- The datum of a `.drops` element: row data with its `data` array
(`Option`-wrapped for the `!d.data` guard). -/
structure Row (α : Type) where
  data : Option (List α)

/-- `getHeatmapBucketData` from `heatmap.js` (lines 250-264). -/
def getHeatmapBucketData {α : Type} (xScale : XScale) (dropDate : α → Option Int)
    (timeInterval : TimeInterval) (d : Option (Row α)) : List (HBucket α) :=
  match d with
  | none => []
  | some row =>
    match row.data with
    | none => []
    | some _ =>
      normalizeBuckets (aggregateEvents xScale dropDate row.data timeInterval)

/-- Boolean test used to state the aggregation counting property: the
event's extracted instant is valid and lies in `[domainStart, domainEnd)`
(the domain check of `aggregateEvents`). -/
def inDomain {α : Type} (dropDate : α → Option Int) (domainStart domainEnd : Int)
    (event : α) : Bool :=
  match dropDate event with
  | some d => decide (domainStart ≤ d ∧ d < domainEnd)
  | none => false

/-- Sum of `count` over a bucket sequence. -/
def countSum {α : Type} (buckets : List (Bucket α)) : Nat :=
  (buckets.map (fun b => b.count)).sum

/-- Sum of `count` over the entries of the bucket accumulator. -/
def pairCountSum {α : Type} (l : List (Int × Bucket α)) : Nat :=
  (l.map (fun p => p.2.count)).sum

/-- Specification-side description of the selection loop: the first
candidate attaining the minimal absolute difference to the observed
spacing (later candidates replace the running best only when strictly
smaller). -/
def firstMin (tickDuration : Int) : List Candidate → Option Candidate
  | [] => none
  | c :: rest =>
    match firstMin tickDuration rest with
    | none => some c
    | some b =>
      if |b.expectedDuration - tickDuration| < |c.expectedDuration - tickDuration| then
        some b
      else some c

/-- Maximum intensity of a normalized bucket sequence (0 when empty). -/
def maxIntensityQ {α : Type} (l : List (HBucket α)) : ℚ :=
  (l.map (fun hb => hb.intensity)).foldr max 0

/-- A fixed-width calendar interval of unit length `u` milliseconds,
aligned at the epoch: concrete instantiation of the external calendar
collaborator used by witnesses and counterexamples.  Its `floor` is
monotone and never exceeds its argument, its `ceil` never falls below
its argument, matching the behaviour of the real d3 intervals. -/
def fixedIv (u : Int) : TimeInterval where
  floor t := u * (t / u)
  ceil t := if u * (t / u) = t then t else u * (t / u) + u
  offset t n := t + n * u
  count a b := b / u - a / u

/-- Milliseconds per (365-day) year in the concrete example calendar. -/
def MS_PER_YEAR : Int := 31536000000

/-- A concrete d3 calendar: no-leap-year years, 30-day months, epoch
aligned weeks; this is a consistent instantiation of the calendar
collaborator interface. -/
def d3Fixed : D3 where
  timeYear := fixedIv MS_PER_YEAR
  timeMonth := fixedIv 2592000000
  timeWeek := fixedIv 604800000
  timeDay := fixedIv 86400000
  timeHour := fixedIv 3600000
  timeMinute := fixedIv 60000
  timeSecond := fixedIv 1000
  timeYearEvery n := fixedIv (n * MS_PER_YEAR)

/-- An xScale whose sampled ticks are exactly one calendar year apart
(domain of one year, identity pixel mapping). -/
def xScaleYear : XScale where
  domain := some [some 0, some MS_PER_YEAR]
  ticks _ := [0, MS_PER_YEAR]
  toPx t := t

/-- An xScale with a malformed domain (fewer than two values). -/
def xScaleBad : XScale where
  domain := some []
  ticks _ := []
  toPx t := t

/-- An xScale with a one-year domain and a pixel mapping of one pixel per
hour (a monotone, linear scale): bucket widths are 1px at `hours`, 24px
at `days`, 168px at `weeks`. -/
def xScaleHourPx : XScale where
  domain := some [some 0, some MS_PER_YEAR]
  ticks _ := [0, MS_PER_YEAR]
  toPx t := t / 3600000

/-- A small xScale for the aggregation witness: domain `[0, 50)`,
identity pixel mapping. -/
def xScaleSmall : XScale where
  domain := some [some 0, some 50]
  ticks _ := [0, 50]
  toPx t := t

/-- C1 counterexample: a domain whose two bounds are valid instants with
start equal to end is accepted by `validateDomain` (it returns the bounds,
not the invalid-domain result), so the claimed `start < end` requirement
is not enforced. -/
theorem validateDomain_accepts_degenerate_domain :
    validateDomain (some [some 5, some 5]) = some (5, 5) ∧ ¬ ((5 : Int) < 5) := by
  decide

/-- C1 (amended): domain validation accepts a domain if and only if it
supplies at least two values and the first two are valid instants; the
order of the bounds is not checked. -/
theorem validateDomain_accepts_iff (domain : Option (List (Option Int))) (s e : Int) :
    validateDomain domain = some (s, e) ↔
      ∃ l, domain = some l ∧ 2 ≤ l.length ∧
        l[0]? = some (some s) ∧ l[1]? = some (some e) := by
  cases domain with
  | none => simp [validateDomain]
  | some l =>
    match l with
    | [] => simp [validateDomain]
    | [a] => simp [validateDomain]
    | a :: b :: rest =>
      cases a with
      | none => simp [validateDomain]
      | some va =>
        cases b with
        | none => simp [validateDomain]
        | some vb =>
          simp [validateDomain, and_comm]

/-- C6: the detected tick granularity is mapped to the bucket granularity
by the fixed table of `BUCKET_SCALE_MAP`; in particular two sampled ticks
one calendar year apart are detected as `years` and yield bucket
granularity `months` through `getTimeScale`, and `milliseconds` maps to
itself. -/
theorem bucket_scale_map_table :
    BUCKET_SCALE_MAP "millennium" = some "decades"
  ∧ BUCKET_SCALE_MAP "decades" = some "years"
  ∧ BUCKET_SCALE_MAP "years" = some "months"
  ∧ BUCKET_SCALE_MAP "months" = some "weeks"
  ∧ BUCKET_SCALE_MAP "weeks" = some "days"
  ∧ BUCKET_SCALE_MAP "days" = some "hours"
  ∧ BUCKET_SCALE_MAP "hours" = some "minutes"
  ∧ BUCKET_SCALE_MAP "minutes" = some "seconds"
  ∧ BUCKET_SCALE_MAP "seconds" = some "milliseconds"
  ∧ BUCKET_SCALE_MAP "milliseconds" = some "milliseconds"
  ∧ detectTickScaleFromTicks d3Fixed [0, MS_PER_YEAR] = "years"
  ∧ getTimeScale d3Fixed xScaleYear none none none = "months" := by
  decide

/-- C7: for every malformed domain (missing, fewer than two values, or
bounds that are not valid instants — exactly the domains rejected by
`validateDomain`), the resolver returns the default granularity `days`
and the aggregator returns the empty bucket sequence; both functions are
total, so no error is raised. -/
theorem malformed_domain_defaults {α : Type} (d3 : D3) (xScale : XScale)
    (numberDisplayedTicks : Option (String → Option Int))
    (breakpointLabel : Option String) (bucketSize : Option BucketSize)
    (dropDate : α → Option Int) (events : Option (List α))
    (timeInterval : TimeInterval)
    (h : validateDomain xScale.domain = none) :
    getTimeScale d3 xScale numberDisplayedTicks breakpointLabel bucketSize = "days"
    ∧ aggregateEvents xScale dropDate events timeInterval = [] := by
  constructor
  · unfold getTimeScale
    rw [h]
  · unfold aggregateEvents
    rw [h]

/-- C7 witness: a concrete malformed domain (empty list) yields `days`
and the empty bucket sequence. -/
theorem malformed_domain_defaults_witness :
    getTimeScale d3Fixed xScaleBad none none none = "days"
    ∧ aggregateEvents xScaleBad (fun n : Int => some n) (some [1, 2]) (fixedIv 10) = [] :=
  malformed_domain_defaults d3Fixed xScaleBad none none none
    (fun n : Int => some n) (some [1, 2]) (fixedIv 10) rfl

/-- C9: the interval selected for `milliseconds` is the one selected for
`seconds` (both are `d3.timeSecond`), so bucket widths computed at the
two granularities coincide; any unrecognized granularity string resolves
to the day interval. -/
theorem milliseconds_seconds_interval (d3 : D3) :
    getD3TimeInterval d3 "milliseconds" = getD3TimeInterval d3 "seconds"
  ∧ getD3TimeInterval d3 "milliseconds" = d3.timeSecond
  ∧ (∀ xScale : XScale, calculateBucketWidth d3 xScale "milliseconds"
      = calculateBucketWidth d3 xScale "seconds")
  ∧ ∀ s : String,
      s ∉ ["millennium", "decades", "years", "months", "weeks", "days", "hours",
           "minutes", "seconds", "milliseconds"] →
      getD3TimeInterval d3 s = d3.timeDay := by
  refine ⟨rfl, rfl, fun _ => rfl, ?_⟩
  intro s hs
  unfold getD3TimeInterval
  split
  all_goals simp_all

/-- C9 witness: the equality at the concrete calendar, and a concrete
unrecognized string resolving to the day interval. -/
theorem milliseconds_seconds_interval_witness :
    getD3TimeInterval d3Fixed "milliseconds" = getD3TimeInterval d3Fixed "seconds"
  ∧ getD3TimeInterval d3Fixed "bogus" = d3Fixed.timeDay :=
  ⟨(milliseconds_seconds_interval d3Fixed).1,
   (milliseconds_seconds_interval d3Fixed).2.2.2 "bogus" (by decide)⟩

/-- C10: for every malformed domain `shouldUseHeatmap` is false even
though the resolver's default granularity `days` belongs to the
heatmap-enabling set; for well-formed domains it is true exactly when the
computed bucket granularity belongs to that set. -/
theorem shouldUseHeatmap_spec (d3 : D3) (xScale : XScale)
    (numberDisplayedTicks : Option (String → Option Int))
    (breakpointLabel : Option String) (bucketSize : Option BucketSize) :
    (validateDomain xScale.domain = none →
      shouldUseHeatmap d3 xScale numberDisplayedTicks breakpointLabel bucketSize = false
      ∧ getTimeScale d3 xScale numberDisplayedTicks breakpointLabel bucketSize = "days"
      ∧ "days" ∈ ["days", "weeks", "months", "years", "decades"])
  ∧ ∀ p : Int × Int, validateDomain xScale.domain = some p →
      (shouldUseHeatmap d3 xScale numberDisplayedTicks breakpointLabel bucketSize = true ↔
        getTimeScale d3 xScale numberDisplayedTicks breakpointLabel bucketSize
          ∈ ["days", "weeks", "months", "years", "decades"]) := by
  constructor
  · intro h
    refine ⟨?_, ?_, by simp⟩
    · unfold shouldUseHeatmap
      rw [h]
    · unfold getTimeScale
      rw [h]
  · intro p hp
    unfold shouldUseHeatmap
    rw [hp]
    exact List.elem_iff

/-- C10 witness: a malformed domain gives `false`; for a concrete
well-formed domain the heatmap decision coincides with membership of the
computed granularity in the enabling set. -/
theorem shouldUseHeatmap_spec_witness :
    shouldUseHeatmap d3Fixed xScaleBad none none none = false
  ∧ (shouldUseHeatmap d3Fixed xScaleYear none none none = true ↔
      getTimeScale d3Fixed xScaleYear none none none
        ∈ ["days", "weeks", "months", "years", "decades"]) :=
  ⟨((shouldUseHeatmap_spec d3Fixed xScaleBad none none none).1 rfl).1,
   (shouldUseHeatmap_spec d3Fixed xScaleYear none none none).2 (0, MS_PER_YEAR) rfl⟩

/-- `foldr max` is bounded by any bound of the seed and the elements. -/
theorem foldr_max_le {β : Type} [LinearOrder β] {l : List β} {z c : β}
    (hz : z ≤ c) (h : ∀ x ∈ l, x ≤ c) : l.foldr max z ≤ c := by
  induction l with
  | nil => exact hz
  | cons a t ih =>
    simp only [List.foldr]
    exact max_le (h a (by simp)) (ih fun x hx => h x (by simp [hx]))

/-- Every element is below its list's `foldr max`. -/
theorem le_foldr_max {β : Type} [LinearOrder β] {l : List β} {z x : β}
    (hx : x ∈ l) : x ≤ l.foldr max z := by
  induction l with
  | nil => cases hx
  | cons a t ih =>
    rcases List.mem_cons.mp hx with rfl | h
    · exact le_max_left _ _
    · exact le_trans (ih h) (le_max_right _ _)

/-- `foldr max` is the seed or attained by a list element. -/
theorem foldr_max_mem {β : Type} [LinearOrder β] (l : List β) (z : β) :
    l.foldr max z = z ∨ l.foldr max z ∈ l := by
  induction l with
  | nil => left; rfl
  | cons a t ih =>
    simp only [List.foldr]
    rcases max_choice a (t.foldr max z) with hm | hm
    · right; rw [hm]; exact List.mem_cons_self a t
    · rw [hm]
      rcases ih with h | h
      · left; exact h
      · right; exact List.mem_cons_of_mem _ h

/-- `getMaxIntensity` is always at least 1 (so the division guard in the
normalization is never taken on the zero side). -/
theorem getMaxIntensity_pos {α : Type} (buckets : List (Bucket α)) :
    0 < getMaxIntensity buckets := by
  simp only [getMaxIntensity]
  split
  · norm_num
  · split
    · assumption
    · norm_num

/-- C8: `maxCount` is the maximum bucket count, or 1 for an empty row or
all-zero counts; each intensity is `count / maxCount` clamped to `[0,1]`;
any row containing a non-empty bucket normalizes to maximum intensity 1,
and the empty row normalizes to the empty sequence. -/
theorem normalization_spec {α : Type} (buckets : List (Bucket α)) :
    normalizeBuckets ([] : List (Bucket α)) = []
  ∧ ((buckets = [] ∨ ∀ b ∈ buckets, b.count = 0) → getMaxIntensity buckets = 1)
  ∧ ((∃ b ∈ buckets, 0 < b.count) →
      getMaxIntensity buckets = (buckets.map (fun b => b.count)).foldr max 0
      ∧ (∃ b ∈ buckets, b.count = getMaxIntensity buckets)
      ∧ ∀ b ∈ buckets, b.count ≤ getMaxIntensity buckets)
  ∧ (∀ hb ∈ normalizeBuckets buckets,
      hb.intensity = min ((hb.count : ℚ) / (getMaxIntensity buckets : ℚ)) 1
      ∧ 0 ≤ hb.intensity ∧ hb.intensity ≤ 1)
  ∧ ((∃ b ∈ buckets, 0 < b.count) → maxIntensityQ (normalizeBuckets buckets) = 1) := by
  have hpos := getMaxIntensity_pos buckets
  have hcast : (0 : ℚ) < (getMaxIntensity buckets : ℚ) := by
    exact_mod_cast hpos
  have hmain : (∃ b ∈ buckets, 0 < b.count) →
      getMaxIntensity buckets = (buckets.map (fun b => b.count)).foldr max 0
      ∧ (∃ b ∈ buckets, b.count = getMaxIntensity buckets)
      ∧ ∀ b ∈ buckets, b.count ≤ getMaxIntensity buckets := by
    rintro ⟨b, hb, hbc⟩
    have hlen : ¬ buckets.length = 0 := by
      intro h0
      rw [List.length_eq_zero] at h0
      subst h0
      cases hb
    have hmem : b.count ∈ buckets.map (fun b => b.count) :=
      List.mem_map.mpr ⟨b, hb, rfl⟩
    have hle : b.count ≤ (buckets.map (fun b => b.count)).foldr max 0 :=
      le_foldr_max hmem
    have hfpos : 0 < (buckets.map (fun b => b.count)).foldr max 0 :=
      lt_of_lt_of_le hbc hle
    have heq : getMaxIntensity buckets = (buckets.map (fun b => b.count)).foldr max 0 := by
      simp only [getMaxIntensity, if_neg hlen, if_pos hfpos]
    refine ⟨heq, ?_, ?_⟩
    · rcases foldr_max_mem (buckets.map (fun b => b.count)) 0 with h0 | hmem2
      · rw [h0] at hfpos
        exact absurd hfpos (lt_irrefl 0)
      · rcases List.mem_map.mp hmem2 with ⟨b', hb', hb'c⟩
        exact ⟨b', hb', by rw [heq, hb'c]⟩
    · intro b' hb'
      rw [heq]
      exact le_foldr_max (List.mem_map.mpr ⟨b', hb', rfl⟩)
  have hnorm : ∀ hb ∈ normalizeBuckets buckets,
      hb.intensity = min ((hb.count : ℚ) / (getMaxIntensity buckets : ℚ)) 1
      ∧ 0 ≤ hb.intensity ∧ hb.intensity ≤ 1 := by
    intro hb hmem
    simp only [normalizeBuckets, List.mem_map] at hmem
    rcases hmem with ⟨b, hb', rfl⟩
    simp only [if_pos hpos]
    refine ⟨?_, ?_, ?_⟩ <;>
      first
      | rfl
      | trivial
      | exact min_le_right _ _
      | exact le_min (div_nonneg (by positivity) (le_of_lt hcast)) (by norm_num)
  refine ⟨rfl, ?_, hmain, hnorm, ?_⟩
  · rintro (rfl | hz)
    · rfl
    · by_cases hnil : buckets = []
      · subst hnil; rfl
      · have hlen : ¬ buckets.length = 0 := by
          simpa [List.length_eq_zero] using hnil
        have hle0 : (buckets.map (fun b => b.count)).foldr max 0 ≤ 0 :=
          foldr_max_le (le_refl 0) (fun x hx => by
            rcases List.mem_map.mp hx with ⟨b, hb, rfl⟩
            exact le_of_eq (hz b hb))
        have hf0 : (buckets.map (fun b => b.count)).foldr max 0 = 0 :=
          Nat.le_zero.mp hle0
        simp only [getMaxIntensity, if_neg hlen, hf0]
        norm_num
  · intro hex
    obtain ⟨heq, ⟨bmax, hbmax, hbmaxc⟩, hbd⟩ := hmain hex
    apply le_antisymm
    · apply foldr_max_le (by norm_num)
      intro x hx
      rcases List.mem_map.mp hx with ⟨hb, hhb, rfl⟩
      exact ((hnorm hb hhb).2).2
    · have himg : (⟨bmax.date, bmax.count, bmax.events,
          if 0 < getMaxIntensity buckets then
            min ((bmax.count : ℚ) / (getMaxIntensity buckets : ℚ)) 1
          else 0⟩ : HBucket α) ∈ normalizeBuckets buckets := by
        simp only [normalizeBuckets]
        exact List.mem_map.mpr ⟨bmax, hbmax, rfl⟩
      have hint : (if 0 < getMaxIntensity buckets then
          min ((bmax.count : ℚ) / (getMaxIntensity buckets : ℚ)) 1 else 0) = 1 := by
        rw [if_pos hpos, hbmaxc, div_self (ne_of_gt hcast), min_self]
      have hmem1 : (1 : ℚ) ∈ (normalizeBuckets buckets).map (fun hb => hb.intensity) := by
        refine List.mem_map.mpr ⟨_, himg, ?_⟩
        exact hint
      exact le_foldr_max hmem1

/-- C8 witness: a concrete two-bucket row (counts 2 and 1) normalizes to
maximum intensity exactly 1. -/
theorem normalization_spec_witness :
    maxIntensityQ (normalizeBuckets [(⟨0, 2, []⟩ : Bucket Int), ⟨10, 1, []⟩]) = 1 :=
  (normalization_spec [(⟨0, 2, []⟩ : Bucket Int), ⟨10, 1, []⟩]).2.2.2.2
    ⟨⟨0, 2, []⟩, by decide, by decide⟩

/-- Adding an event to the bucket accumulator raises the total count by
exactly one, whether its key is new or existing. -/
theorem addToBuckets_countSum {α : Type} (acc : List (Int × Bucket α)) (k : Int) (e : α) :
    pairCountSum (addToBuckets acc k e) = pairCountSum acc + 1 := by
  induction acc with
  | nil => rfl
  | cons p t ih =>
    obtain ⟨k', b⟩ := p
    simp only [addToBuckets]
    split
    · simp [pairCountSum]
      omega
    · simp only [pairCountSum, List.map_cons, List.sum_cons] at ih ⊢
      omega

/-- The aggregation fold adds one to the total count for exactly the
events whose instant is valid and inside `[domainStart, domainEnd)`,
provided the interval's `floor` is monotone and never exceeds its
argument and its `ceil` never falls below its argument. -/
theorem foldl_aggregateStep_countSum {α : Type} (dropDate : α → Option Int)
    (s e : Int) (ti : TimeInterval)
    (hmono : ∀ a b : Int, a ≤ b → ti.floor a ≤ ti.floor b)
    (hfle : ∀ a : Int, ti.floor a ≤ a)
    (hceil : ∀ a : Int, a ≤ ti.ceil a) :
    ∀ (evs : List α) (acc : List (Int × Bucket α)),
      pairCountSum (evs.foldl
          (aggregateStep dropDate s e ti (ti.floor s) (ti.ceil e)) acc)
        = pairCountSum acc + evs.countP (inDomain dropDate s e) := by
  intro evs
  induction evs with
  | nil => simp
  | cons ev t ih =>
    intro acc
    rw [List.foldl_cons, ih, List.countP_cons]
    have hstep : pairCountSum (aggregateStep dropDate s e ti (ti.floor s) (ti.ceil e) acc ev)
        = pairCountSum acc + if inDomain dropDate s e ev = true then 1 else 0 := by
      cases hd : dropDate ev with
      | none => simp [aggregateStep, inDomain, hd]
      | some d =>
        by_cases hin : d < s ∨ e ≤ d
        · have hq : ¬ (s ≤ d ∧ d < e) := by omega
          simp [aggregateStep, inDomain, hd, hin, hq]
        · have h1 : s ≤ d := by omega
          have h2 : d < e := by omega
          have henv : ti.floor s ≤ ti.floor d ∧ ti.floor d ≤ ti.ceil e :=
            ⟨hmono _ _ h1, le_trans (hfle d) (le_trans (le_of_lt h2) (hceil e))⟩
          simp [aggregateStep, inDomain, hd, hin, henv, h1, h2, addToBuckets_countSum]
    rw [hstep]
    omega

/-- C2: for every valid domain and any interval whose `floor` is monotone
and non-increasing and whose `ceil` is non-decreasing (as all d3 calendar
intervals are), the sum of `count` over the buckets of `aggregateEvents`
equals the number of supplied events whose extracted instant is valid and
lies in `[domain.start, domain.end)`; moreover the envelope check never
drops an event that passed the domain check: the floored instant of any
in-domain event lies in `[floor(start), ceil(end)]`. -/
theorem aggregate_count_conservation {α : Type} (xScale : XScale)
    (dropDate : α → Option Int) (evs : List α) (ti : TimeInterval) (s e : Int)
    (hdom : validateDomain xScale.domain = some (s, e))
    (hmono : ∀ a b : Int, a ≤ b → ti.floor a ≤ ti.floor b)
    (hfle : ∀ a : Int, ti.floor a ≤ a)
    (hceil : ∀ a : Int, a ≤ ti.ceil a) :
    countSum (aggregateEvents xScale dropDate (some evs) ti)
      = evs.countP (inDomain dropDate s e)
    ∧ ∀ d : Int, s ≤ d → d < e →
        ti.floor s ≤ ti.floor d ∧ ti.floor d ≤ ti.ceil e := by
  constructor
  · unfold aggregateEvents
    rw [hdom]
    have hperm := List.mergeSort_perm
      (List.map Prod.snd
        (evs.foldl (aggregateStep dropDate s e ti (ti.floor s) (ti.ceil e)) []))
      (fun a b : Bucket α => a.date ≤ b.date)
    have hsum : countSum
        ((List.map Prod.snd
          (evs.foldl (aggregateStep dropDate s e ti (ti.floor s) (ti.ceil e)) [])).mergeSort
            (fun a b => a.date ≤ b.date))
        = pairCountSum
            (evs.foldl (aggregateStep dropDate s e ti (ti.floor s) (ti.ceil e)) []) := by
      unfold countSum pairCountSum
      rw [(hperm.map (fun b => b.count)).sum_eq, List.map_map]
      rfl
    rw [hsum, foldl_aggregateStep_countSum dropDate s e ti hmono hfle hceil evs []]
    simp [pairCountSum]
  · intro d h1 h2
    exact ⟨hmono _ _ h1, le_trans (hfle d) (le_trans (le_of_lt h2) (hceil e))⟩

/-- C2 witness: domain `[0, 50)`, flooring to multiples of 10; of the five
supplied events the three with instants 3, 12, 12 are in-domain, and the
bucket counts sum to 3. -/
theorem aggregate_count_conservation_witness :
    countSum (aggregateEvents xScaleSmall (fun n : Int => some n)
        (some [3, 12, 12, 60, -5]) (fixedIv 10)) = 3
    ∧ ([3, 12, 12, 60, -5] : List Int).countP
        (inDomain (fun n => some n) 0 50) = 3 := by
  have h := aggregate_count_conservation xScaleSmall (fun n : Int => some n)
    [3, 12, 12, 60, -5] (fixedIv 10) 0 50 rfl
    (fun a b hab => by simp only [fixedIv]; omega)
    (fun a => by simp only [fixedIv]; omega)
    (fun a => by simp only [fixedIv]; split <;> omega)
  exact ⟨by rw [h.1]; decide, by decide⟩

/-- The selection loop run with a finite running minimum keeps the
running best unless the first minimal candidate strictly improves it. -/
theorem selectLoop_some_eq (td : Int) :
    ∀ (l : List Candidate) (best : String) (m : Int),
      selectLoop td l best (some m) =
        match firstMin td l with
        | some b => if |b.expectedDuration - td| < m then b.scale else best
        | none => best := by
  intro l
  induction l with
  | nil => intro best m; rfl
  | cons c rest ih =>
    intro best m
    simp only [selectLoop]
    by_cases hc : |c.expectedDuration - td| < m
    · rw [if_pos hc, ih]
      cases hf : firstMin td rest with
      | none => simp [firstMin, hf, hc]
      | some b =>
        by_cases hb : |b.expectedDuration - td| < |c.expectedDuration - td|
        · simp only [firstMin, hf, if_pos hb]
          rw [if_pos (lt_trans hb hc)]
        · simp only [firstMin, hf, if_neg hb]
          rw [if_pos hc]
    · rw [if_neg hc, ih]
      cases hf : firstMin td rest with
      | none => simp [firstMin, hf, hc]
      | some b =>
        by_cases hb : |b.expectedDuration - td| < |c.expectedDuration - td|
        · simp only [firstMin, hf, if_pos hb]
        · have hnb : ¬ |b.expectedDuration - td| < m :=
            fun h => hc (lt_of_le_of_lt (not_lt.mp hb) h)
          simp only [firstMin, hf, if_neg hb]
          rw [if_neg hnb, if_neg hc]

/-- The selection loop started at `Infinity` returns the scale of the
first candidate attaining the minimal difference (the initial
`milliseconds` best survives only on an empty candidate list). -/
theorem selectLoop_none_eq (td : Int) (l : List Candidate) (best : String) :
    selectLoop td l best none =
      match firstMin td l with
      | some b => b.scale
      | none => best := by
  cases l with
  | nil => rfl
  | cons c rest =>
    simp only [selectLoop]
    rw [selectLoop_some_eq]
    cases hf : firstMin td rest with
    | none => simp [firstMin, hf]
    | some b =>
      by_cases hb : |b.expectedDuration - td| < |c.expectedDuration - td|
      · simp only [firstMin, hf, if_pos hb]
      · simp only [firstMin, hf, if_neg hb]

/-- `firstMin` picks the first position attaining the minimum absolute
difference: it is minimal among all candidates and strictly below every
earlier candidate. -/
theorem firstMin_spec (td : Int) :
    ∀ l : List Candidate, l ≠ [] →
      ∃ (i : Nat) (hi : i < l.length),
        firstMin td l = some (l.get ⟨i, hi⟩)
        ∧ (∀ (j : Nat) (hj : j < l.length),
            |(l.get ⟨i, hi⟩).expectedDuration - td|
              ≤ |(l.get ⟨j, hj⟩).expectedDuration - td|)
        ∧ ∀ j, j < i → ∀ (hj : j < l.length),
            |(l.get ⟨i, hi⟩).expectedDuration - td|
              < |(l.get ⟨j, hj⟩).expectedDuration - td| := by
  intro l
  induction l with
  | nil => intro h; exact absurd rfl h
  | cons c rest ih =>
    intro _
    by_cases hrest : rest = []
    · subst hrest
      refine ⟨0, by simp, rfl, ?_, ?_⟩
      · intro j hj
        have hj0 : j = 0 := by simpa using Nat.lt_one_iff.mp (by simpa using hj)
        subst hj0
        exact le_refl _
      · intro j hj _
        omega
    · obtain ⟨i, hi, heq, hmin, hstrict⟩ := ih hrest
      by_cases hlt : |(rest.get ⟨i, hi⟩).expectedDuration - td| < |c.expectedDuration - td|
      · refine ⟨i + 1, by simpa using Nat.succ_lt_succ hi, ?_, ?_, ?_⟩
        · simp only [firstMin, heq, if_pos hlt, List.get_cons_succ]
        · intro j hj
          cases j with
          | zero => exact le_of_lt hlt
          | succ j' =>
            have hj' : j' < rest.length := by simpa using Nat.lt_of_succ_lt_succ hj
            exact hmin j' hj'
        · intro j hjlt hj
          cases j with
          | zero => exact hlt
          | succ j' =>
            have hj' : j' < rest.length := by simpa using Nat.lt_of_succ_lt_succ hj
            exact hstrict j' (Nat.lt_of_succ_lt_succ hjlt) hj'
      · refine ⟨0, by simp, ?_, ?_, ?_⟩
        · simp only [firstMin, heq, if_neg hlt]
          rfl
        · intro j hj
          cases j with
          | zero => exact le_refl _
          | succ j' =>
            have hj' : j' < rest.length := by simpa using Nat.lt_of_succ_lt_succ hj
            exact le_trans (not_lt.mp hlt) (hmin j' hj')
        · intro j hjlt _
          omega

/-- A conditional singleton's scale image is a sublist of that scale. -/
theorem sublist_if_singleton {c : Prop} [Decidable c] (x : Candidate) :
    ((if c then [x] else []).map Candidate.scale).Sublist [x.scale] := by
  split
  · exact List.Sublist.refl _
  · exact List.nil_sublist _

/-- C4: closest-unit inference returns the scale of the first candidate
(in the fixed iteration order) whose expected duration minimizes the
absolute difference to the raw observed spacing, keeping the earlier
candidate on exact ties; the milliseconds fallback, whose expected
duration equals the raw spacing, is always the last candidate; and the
candidate order is the fixed order millennium, decades, years, months,
weeks, days, hours, minutes, seconds, milliseconds.  In particular the
result is defined for any two sampled ticks. -/
theorem detect_first_min (d3 : D3) (t1 t2 : Int) (rest : List Int) :
    (∃ (i : Nat) (hi : i < (detectCandidates d3 t1 t2).length),
      detectTickScaleFromTicks d3 (t1 :: t2 :: rest)
        = ((detectCandidates d3 t1 t2).get ⟨i, hi⟩).scale
      ∧ (∀ (j : Nat) (hj : j < (detectCandidates d3 t1 t2).length),
          |((detectCandidates d3 t1 t2).get ⟨i, hi⟩).expectedDuration - (t2 - t1)|
            ≤ |((detectCandidates d3 t1 t2).get ⟨j, hj⟩).expectedDuration - (t2 - t1)|)
      ∧ ∀ j, j < i → ∀ (hj : j < (detectCandidates d3 t1 t2).length),
          |((detectCandidates d3 t1 t2).get ⟨i, hi⟩).expectedDuration - (t2 - t1)|
            < |((detectCandidates d3 t1 t2).get ⟨j, hj⟩).expectedDuration - (t2 - t1)|)
    ∧ (detectCandidates d3 t1 t2).getLast? = some ⟨"milliseconds", t2 - t1, 1⟩
    ∧ ((detectCandidates d3 t1 t2).map Candidate.scale).Sublist
        ["millennium", "decades", "years", "months", "weeks", "days", "hours",
         "minutes", "seconds", "milliseconds"] := by
  have hlast : (detectCandidates d3 t1 t2).getLast? = some ⟨"milliseconds", t2 - t1, 1⟩ := by
    simp only [detectCandidates]
    exact List.getLast?_concat _
  have hne : detectCandidates d3 t1 t2 ≠ [] := by
    intro h
    rw [h] at hlast
    simp at hlast
  refine ⟨?_, hlast, ?_⟩
  · obtain ⟨i, hi, heq, hmin, hstrict⟩ := firstMin_spec (t2 - t1) (detectCandidates d3 t1 t2) hne
    refine ⟨i, hi, ?_, hmin, hstrict⟩
    show selectLoop (t2 - t1) (detectCandidates d3 t1 t2) "milliseconds" none = _
    rw [selectLoop_none_eq, heq]
  · simp only [detectCandidates, List.map_append]
    show List.Sublist (_ ++ _)
      (((((((((["millennium"] ++ ["decades"]) ++ ["years"]) ++ ["months"])
        ++ ["weeks"]) ++ ["days"]) ++ ["hours"]) ++ ["minutes"]) ++ ["seconds"])
        ++ ["milliseconds"])
    refine List.Sublist.append ?_ (List.Sublist.refl _)
    refine List.Sublist.append ?_ (sublist_if_singleton _)
    refine List.Sublist.append ?_ (sublist_if_singleton _)
    refine List.Sublist.append ?_ (sublist_if_singleton _)
    refine List.Sublist.append ?_ (sublist_if_singleton _)
    refine List.Sublist.append ?_ (sublist_if_singleton _)
    refine List.Sublist.append ?_ (sublist_if_singleton _)
    refine List.Sublist.append ?_ (sublist_if_singleton _)
    exact List.Sublist.append (sublist_if_singleton _) (sublist_if_singleton _)

/-- C4 witness: the first-minimum characterization instantiated at two
concrete ticks one (365-day) year apart under the concrete calendar. -/
theorem detect_first_min_witness :
    ∃ (i : Nat) (hi : i < (detectCandidates d3Fixed 0 MS_PER_YEAR).length),
      detectTickScaleFromTicks d3Fixed (0 :: MS_PER_YEAR :: [])
        = ((detectCandidates d3Fixed 0 MS_PER_YEAR).get ⟨i, hi⟩).scale
      ∧ (∀ (j : Nat) (hj : j < (detectCandidates d3Fixed 0 MS_PER_YEAR).length),
          |((detectCandidates d3Fixed 0 MS_PER_YEAR).get ⟨i, hi⟩).expectedDuration
              - (MS_PER_YEAR - 0)|
            ≤ |((detectCandidates d3Fixed 0 MS_PER_YEAR).get ⟨j, hj⟩).expectedDuration
              - (MS_PER_YEAR - 0)|)
      ∧ ∀ j, j < i → ∀ (hj : j < (detectCandidates d3Fixed 0 MS_PER_YEAR).length),
          |((detectCandidates d3Fixed 0 MS_PER_YEAR).get ⟨i, hi⟩).expectedDuration
              - (MS_PER_YEAR - 0)|
            < |((detectCandidates d3Fixed 0 MS_PER_YEAR).get ⟨j, hj⟩).expectedDuration
              - (MS_PER_YEAR - 0)| :=
  (detect_first_min d3Fixed 0 MS_PER_YEAR []).1

/-- Membership in a conditional singleton list. -/
theorem mem_if_singleton {c : Prop} [Decidable c] {x y : Candidate} :
    y ∈ (if c then [x] else []) ↔ c ∧ y = x := by
  split
  · simp [*]
  · simp [*]

/-- C3 counterexample: with ticks 1500 calendar years apart, the
millennium candidate qualifies with unit count 1, but its expected
duration is the elapsed time of advancing tick1 by the full year count
(1500 years), not by its unit count of millennia (1000 years): the two
differ, refuting the claim for millennium (and likewise decades when the
year count is not a multiple of 10). -/
theorem millennium_expected_duration_counterexample :
    (detectCandidates d3Fixed 0 (1500 * MS_PER_YEAR)).find?
        (fun c => c.scale == "millennium")
      = some ⟨"millennium", 1500 * MS_PER_YEAR, 1⟩
  ∧ (d3Fixed.timeYearEvery 1000).offset 0 1 - 0 = 1000 * MS_PER_YEAR
  ∧ d3Fixed.timeYear.offset 0 (1000 * 1) - 0 = 1000 * MS_PER_YEAR
  ∧ (1500 * MS_PER_YEAR : Int) ≠ 1000 * MS_PER_YEAR := by
  decide

/-- C3 (amended): a unit qualifies as a candidate exactly under the source
conditions (count at least 1; millennium and decades keyed on the year
count being at least 1000 resp. 10); for the units years, months, weeks,
days, hours, minutes and seconds the candidate's expected duration is the
elapsed time of advancing tick1 by that unit's integer count, and its
`count` field is that count; for millennium and decades the `count` field
is the floored quotient of the year count by 1000 resp. 10, but the
expected duration is the elapsed time of advancing tick1 by the *full
year count* of years, not by the millennium/decade unit count; the
milliseconds fallback is always present with expected duration equal to
the raw observed spacing. -/
theorem detect_candidates_spec (d3 : D3) (t1 t2 : Int) :
    ((∃ c ∈ detectCandidates d3 t1 t2, c.scale = "millennium")
        ↔ 1000 ≤ d3.timeYear.count t1 t2)
  ∧ (∀ c ∈ detectCandidates d3 t1 t2, c.scale = "millennium" →
      c.expectedDuration = d3.timeYear.offset t1 (d3.timeYear.count t1 t2) - t1
      ∧ c.count = d3.timeYear.count t1 t2 / 1000)
  ∧ ((∃ c ∈ detectCandidates d3 t1 t2, c.scale = "decades")
        ↔ 10 ≤ d3.timeYear.count t1 t2)
  ∧ (∀ c ∈ detectCandidates d3 t1 t2, c.scale = "decades" →
      c.expectedDuration = d3.timeYear.offset t1 (d3.timeYear.count t1 t2) - t1
      ∧ c.count = d3.timeYear.count t1 t2 / 10)
  ∧ ((∃ c ∈ detectCandidates d3 t1 t2, c.scale = "years")
        ↔ 1 ≤ d3.timeYear.count t1 t2)
  ∧ (∀ c ∈ detectCandidates d3 t1 t2, c.scale = "years" →
      c.expectedDuration = d3.timeYear.offset t1 (d3.timeYear.count t1 t2) - t1
      ∧ c.count = d3.timeYear.count t1 t2)
  ∧ ((∃ c ∈ detectCandidates d3 t1 t2, c.scale = "months")
        ↔ 1 ≤ d3.timeMonth.count t1 t2)
  ∧ (∀ c ∈ detectCandidates d3 t1 t2, c.scale = "months" →
      c.expectedDuration = d3.timeMonth.offset t1 (d3.timeMonth.count t1 t2) - t1
      ∧ c.count = d3.timeMonth.count t1 t2)
  ∧ ((∃ c ∈ detectCandidates d3 t1 t2, c.scale = "weeks")
        ↔ 1 ≤ d3.timeWeek.count t1 t2)
  ∧ (∀ c ∈ detectCandidates d3 t1 t2, c.scale = "weeks" →
      c.expectedDuration = d3.timeWeek.offset t1 (d3.timeWeek.count t1 t2) - t1
      ∧ c.count = d3.timeWeek.count t1 t2)
  ∧ ((∃ c ∈ detectCandidates d3 t1 t2, c.scale = "days")
        ↔ 1 ≤ d3.timeDay.count t1 t2)
  ∧ (∀ c ∈ detectCandidates d3 t1 t2, c.scale = "days" →
      c.expectedDuration = d3.timeDay.offset t1 (d3.timeDay.count t1 t2) - t1
      ∧ c.count = d3.timeDay.count t1 t2)
  ∧ ((∃ c ∈ detectCandidates d3 t1 t2, c.scale = "hours")
        ↔ 1 ≤ d3.timeHour.count t1 t2)
  ∧ (∀ c ∈ detectCandidates d3 t1 t2, c.scale = "hours" →
      c.expectedDuration = d3.timeHour.offset t1 (d3.timeHour.count t1 t2) - t1
      ∧ c.count = d3.timeHour.count t1 t2)
  ∧ ((∃ c ∈ detectCandidates d3 t1 t2, c.scale = "minutes")
        ↔ 1 ≤ d3.timeMinute.count t1 t2)
  ∧ (∀ c ∈ detectCandidates d3 t1 t2, c.scale = "minutes" →
      c.expectedDuration = d3.timeMinute.offset t1 (d3.timeMinute.count t1 t2) - t1
      ∧ c.count = d3.timeMinute.count t1 t2)
  ∧ ((∃ c ∈ detectCandidates d3 t1 t2, c.scale = "seconds")
        ↔ 1 ≤ d3.timeSecond.count t1 t2)
  ∧ (∀ c ∈ detectCandidates d3 t1 t2, c.scale = "seconds" →
      c.expectedDuration = d3.timeSecond.offset t1 (d3.timeSecond.count t1 t2) - t1
      ∧ c.count = d3.timeSecond.count t1 t2)
  ∧ (∃ c ∈ detectCandidates d3 t1 t2,
      c.scale = "milliseconds" ∧ c.expectedDuration = t2 - t1 ∧ c.count = 1) := by
  simp only [detectCandidates, mem_if_singleton, List.mem_append, List.mem_singleton,
    or_and_right, exists_or, and_assoc, exists_and_left, exists_eq_left, or_imp,
    forall_and, and_imp, forall_eq']
  simp

/-- C3 witness: at ticks 1500 years apart the millennium unit qualifies,
and every millennium candidate carries the year-count-based expected
duration and the floored unit count. -/
theorem detect_candidates_spec_witness :
    (∃ c ∈ detectCandidates d3Fixed 0 (1500 * MS_PER_YEAR), c.scale = "millennium")
    ∧ ∀ c ∈ detectCandidates d3Fixed 0 (1500 * MS_PER_YEAR), c.scale = "millennium" →
        c.expectedDuration
          = d3Fixed.timeYear.offset 0 (d3Fixed.timeYear.count 0 (1500 * MS_PER_YEAR)) - 0
        ∧ c.count = d3Fixed.timeYear.count 0 (1500 * MS_PER_YEAR) / 1000 :=
  ⟨(detect_candidates_spec d3Fixed 0 (1500 * MS_PER_YEAR)).1.mpr (by decide),
   (detect_candidates_spec d3Fixed 0 (1500 * MS_PER_YEAR)).2.1⟩

/-- `getLastD` of a non-empty list ignores its default. -/
theorem getLastD_irrel : ∀ (l : List String), l ≠ [] → ∀ (a b : String),
    l.getLastD a = l.getLastD b
  | [], h, _, _ => absurd rfl h
  | x :: xs, _, a, b => by rw [List.getLastD_cons, List.getLastD_cons]

/-- The ascending walk returns the first scale meeting the minimum, or
the last scanned scale (falling back to the start scale when there is
nothing to scan). -/
theorem walkCoarser_eq (w : String → Int) (m : Int) :
    ∀ (l : List String) (cur : String),
      walkCoarser w m l cur =
        match l.find? (fun s => m ≤ w s) with
        | some s => s
        | none => l.getLastD cur := by
  intro l
  induction l with
  | nil => intro cur; rfl
  | cons a t ih =>
    intro cur
    simp only [walkCoarser]
    by_cases ha : m ≤ w a
    · rw [if_pos ha, List.find?_cons_of_pos _ (by simpa using ha)]
    · rw [if_neg ha, List.find?_cons_of_neg _ (by simpa using ha)]
      by_cases ht : t.isEmpty
      · rw [if_pos ht]
        have ht' : t = [] := List.isEmpty_iff.mp ht
        subst ht'
        rfl
      · rw [if_neg ht, ih cur]
        have htne : t ≠ [] := fun h => by simp [h] at ht
        cases hft : t.find? (fun s => m ≤ w s) with
        | some s => rfl
        | none =>
          rw [List.getLastD_cons]
          exact getLastD_irrel t htne cur a

/-- The descending walk returns the first scale meeting the maximum, or
the last scanned scale (falling back to the start scale when there is
nothing to scan). -/
theorem walkFiner_eq (w : String → Int) (mx : Int) :
    ∀ (l : List String) (cur : String),
      walkFiner w mx l cur =
        match l.find? (fun s => w s ≤ mx) with
        | some s => s
        | none => l.getLastD cur := by
  intro l
  induction l with
  | nil => intro cur; rfl
  | cons a t ih =>
    intro cur
    simp only [walkFiner]
    by_cases ha : w a ≤ mx
    · rw [if_pos ha, List.find?_cons_of_pos _ (by simpa using ha)]
    · rw [if_neg ha, List.find?_cons_of_neg _ (by simpa using ha)]
      by_cases ht : t.isEmpty
      · rw [if_pos ht]
        have ht' : t = [] := List.isEmpty_iff.mp ht
        subst ht'
        rfl
      · rw [if_neg ht, ih cur]
        have htne : t ≠ [] := fun h => by simp [h] at ht
        cases hft : t.find? (fun s => w s ≤ mx) with
        | some s => rfl
        | none =>
          rw [List.getLastD_cons]
          exact getLastD_irrel t htne cur a

/-- Enumeration of the positions of the refinement hierarchy. -/
theorem findIdx_hierarchy (scale : String) (i : Nat)
    (hfi : TIMESCALE_HIERARCHY.findIdx? (fun s => s == scale) = some i) :
    scale = "milliseconds" ∧ i = 0 ∨ scale = "seconds" ∧ i = 1
    ∨ scale = "minutes" ∧ i = 2 ∨ scale = "hours" ∧ i = 3
    ∨ scale = "days" ∧ i = 4 ∨ scale = "weeks" ∧ i = 5
    ∨ scale = "months" ∧ i = 6 ∨ scale = "years" ∧ i = 7
    ∨ scale = "decades" ∧ i = 8 := by
  by_cases h0 : "milliseconds" = scale
  · subst h0
    rw [show TIMESCALE_HIERARCHY.findIdx? (fun s => s == "milliseconds") = some 0 from rfl]
      at hfi
    exact Or.inl ⟨rfl, (Option.some.inj hfi).symm⟩
  by_cases h1 : "seconds" = scale
  · subst h1
    rw [show TIMESCALE_HIERARCHY.findIdx? (fun s => s == "seconds") = some 1 from rfl]
      at hfi
    exact Or.inr (Or.inl ⟨rfl, (Option.some.inj hfi).symm⟩)
  by_cases h2 : "minutes" = scale
  · subst h2
    rw [show TIMESCALE_HIERARCHY.findIdx? (fun s => s == "minutes") = some 2 from rfl]
      at hfi
    exact Or.inr (Or.inr (Or.inl ⟨rfl, (Option.some.inj hfi).symm⟩))
  by_cases h3 : "hours" = scale
  · subst h3
    rw [show TIMESCALE_HIERARCHY.findIdx? (fun s => s == "hours") = some 3 from rfl]
      at hfi
    exact Or.inr (Or.inr (Or.inr (Or.inl ⟨rfl, (Option.some.inj hfi).symm⟩)))
  by_cases h4 : "days" = scale
  · subst h4
    rw [show TIMESCALE_HIERARCHY.findIdx? (fun s => s == "days") = some 4 from rfl]
      at hfi
    exact Or.inr (Or.inr (Or.inr (Or.inr (Or.inl ⟨rfl, (Option.some.inj hfi).symm⟩))))
  by_cases h5 : "weeks" = scale
  · subst h5
    rw [show TIMESCALE_HIERARCHY.findIdx? (fun s => s == "weeks") = some 5 from rfl]
      at hfi
    exact Or.inr (Or.inr (Or.inr (Or.inr (Or.inr (Or.inl
      ⟨rfl, (Option.some.inj hfi).symm⟩)))))
  by_cases h6 : "months" = scale
  · subst h6
    rw [show TIMESCALE_HIERARCHY.findIdx? (fun s => s == "months") = some 6 from rfl]
      at hfi
    exact Or.inr (Or.inr (Or.inr (Or.inr (Or.inr (Or.inr (Or.inl
      ⟨rfl, (Option.some.inj hfi).symm⟩))))))
  by_cases h7 : "years" = scale
  · subst h7
    rw [show TIMESCALE_HIERARCHY.findIdx? (fun s => s == "years") = some 7 from rfl]
      at hfi
    exact Or.inr (Or.inr (Or.inr (Or.inr (Or.inr (Or.inr (Or.inr (Or.inl
      ⟨rfl, (Option.some.inj hfi).symm⟩)))))))
  by_cases h8 : "decades" = scale
  · subst h8
    rw [show TIMESCALE_HIERARCHY.findIdx? (fun s => s == "decades") = some 8 from rfl]
      at hfi
    exact Or.inr (Or.inr (Or.inr (Or.inr (Or.inr (Or.inr (Or.inr (Or.inr
      ⟨rfl, (Option.some.inj hfi).symm⟩)))))))
  exfalso
  simp only [TIMESCALE_HIERARCHY, List.findIdx?_cons, beq_iff_eq,
    if_neg h0, if_neg h1, if_neg h2, if_neg h3, if_neg h4, if_neg h5, if_neg h6,
    if_neg h7, if_neg h8, List.findIdx?_nil] at hfi
  exact Option.noConfusion hfi

/-- Refinement with only `minWidth` set: keep the scale if its width
already meets the minimum, otherwise adopt the first coarser scale whose
width does, or `decades` when none does. -/
theorem refine_min_only (d3 : D3) (xScale : XScale) (scale : String) (i : Nat)
    (hfi : TIMESCALE_HIERARCHY.findIdx? (fun s => s == scale) = some i)
    (hlast : (TIMESCALE_HIERARCHY.drop (i + 1)).getLastD scale = "decades") (m : Int) :
    refineBucketScale d3 xScale scale ⟨some m, none⟩ =
      if m ≤ calculateBucketWidth d3 xScale scale then scale
      else ((TIMESCALE_HIERARCHY.drop (i + 1)).find?
          (fun s => m ≤ calculateBucketWidth d3 xScale s)).getD "decades" := by
  simp only [refineBucketScale, hfi]
  by_cases hm : m ≤ calculateBucketWidth d3 xScale scale
  · rw [if_neg (not_lt.mpr hm), if_pos hm]
  · rw [if_pos (not_le.mp hm), if_neg hm, walkCoarser_eq]
    cases hf : (TIMESCALE_HIERARCHY.drop (i + 1)).find?
        (fun s => m ≤ calculateBucketWidth d3 xScale s) with
    | some s => rfl
    | none => exact hlast

/-- Refinement with only `maxWidth` set: keep the scale if its width
already meets the maximum, otherwise adopt the first finer scale (walking
down from just below the initial scale) whose width does, or
`milliseconds` when none does. -/
theorem refine_max_only (d3 : D3) (xScale : XScale) (scale : String) (i : Nat)
    (hfi : TIMESCALE_HIERARCHY.findIdx? (fun s => s == scale) = some i)
    (hfirst : ((TIMESCALE_HIERARCHY.take i).reverse).getLastD scale = "milliseconds")
    (mx : Int) :
    refineBucketScale d3 xScale scale ⟨none, some mx⟩ =
      if calculateBucketWidth d3 xScale scale ≤ mx then scale
      else (((TIMESCALE_HIERARCHY.take i).reverse).find?
          (fun s => calculateBucketWidth d3 xScale s ≤ mx)).getD "milliseconds" := by
  simp only [refineBucketScale, hfi]
  by_cases hmx : calculateBucketWidth d3 xScale scale ≤ mx
  · rw [if_neg (not_lt.mpr hmx), if_pos hmx]
  · rw [if_pos (not_le.mp hmx), if_neg hmx, walkFiner_eq]
    cases hf : ((TIMESCALE_HIERARCHY.take i).reverse).find?
        (fun s => calculateBucketWidth d3 xScale s ≤ mx) with
    | some s => rfl
    | none => exact hfirst

/-- C5 (amended): when a single constraint is set, refinement is exact:
with only `minWidth`, a scale already wide enough is kept, otherwise the
first coarser scale in the hierarchy meeting the minimum is adopted, and
`decades` when none does; with only `maxWidth`, a scale already narrow
enough is kept, otherwise the first finer scale below the initial
position meeting the maximum is adopted, and `milliseconds` when none
does.  (When both constraints are set the maxWidth walk restarts from
just below the initial scale's position, not from the minWidth-adjusted
scale, so the minWidth adjustment can be discarded — see the
counterexample.) -/
theorem refine_single_constraint_spec (d3 : D3) (xScale : XScale) (scale : String)
    (i : Nat) (hfi : TIMESCALE_HIERARCHY.findIdx? (fun s => s == scale) = some i)
    (m mx : Int) :
    (refineBucketScale d3 xScale scale ⟨some m, none⟩ =
      if m ≤ calculateBucketWidth d3 xScale scale then scale
      else ((TIMESCALE_HIERARCHY.drop (i + 1)).find?
          (fun s => m ≤ calculateBucketWidth d3 xScale s)).getD "decades")
  ∧ (refineBucketScale d3 xScale scale ⟨none, some mx⟩ =
      if calculateBucketWidth d3 xScale scale ≤ mx then scale
      else (((TIMESCALE_HIERARCHY.take i).reverse).find?
          (fun s => calculateBucketWidth d3 xScale s ≤ mx)).getD "milliseconds") := by
  have henum := findIdx_hierarchy scale i hfi
  rcases henum with h | h | h | h | h | h | h | h | h <;> obtain ⟨rfl, rfl⟩ := h <;>
    exact ⟨refine_min_only d3 xScale _ _ (by rfl) (by rfl) m,
           refine_max_only d3 xScale _ _ (by rfl) (by rfl) mx⟩

/-- C5 witness: with a one-pixel-per-hour scale over a one-year domain
(`days` is 24px wide, `weeks` 168px), a 100px minimum moves `days` up to
`weeks`, and a 150px maximum keeps `days` unchanged. -/
theorem refine_single_constraint_spec_witness :
    refineBucketScale d3Fixed xScaleHourPx "days" ⟨some 100, none⟩ = "weeks"
    ∧ refineBucketScale d3Fixed xScaleHourPx "days" ⟨none, some 150⟩ = "days" := by
  have h := refine_single_constraint_spec d3Fixed xScaleHourPx "days" 4 rfl 100 150
  refine ⟨?_, ?_⟩
  · rw [h.1]
    decide
  · rw [h.2]
    decide

/-- C5 counterexample: with both constraints set (`minWidth` 100px,
`maxWidth` 150px) on the one-pixel-per-hour scale, the minWidth walk
correctly reaches `weeks` (168px), but since 168px exceeds the maximum,
the maxWidth walk restarts from just below the *initial* scale `days`
and immediately adopts `hours` (1px) — a granularity that fails the
minimum although the coarser `weeks` satisfies it, refuting the claim
for simultaneously-set constraints. -/
theorem refine_both_constraints_counterexample :
    refineBucketScale d3Fixed xScaleHourPx "days" ⟨some 100, some 150⟩ = "hours"
  ∧ calculateBucketWidth d3Fixed xScaleHourPx "hours" < 100
  ∧ 100 ≤ calculateBucketWidth d3Fixed xScaleHourPx "weeks"
  ∧ calculateBucketWidth d3Fixed xScaleHourPx "weeks" ≤ 168
  ∧ "weeks" ∈ TIMESCALE_HIERARCHY := by
  decide
